import Mathlib

/-!
# Verification of the gorilla `mux` request-routing engine

This file is a shallow embedding, in Lean 4, of the core of the `mux`
package of the gorilla web toolkit (files `gorilla/mux/mux.go`,
`gorilla/mux/matchers.go` and the split-out route/router files of the same
package): the route-template compiler (`parseTemplate`,
`findAllVariableIndex`), the reverse URL builder (`reverseRoute`), the
request matchers (`matchMap`, `matchInArray`, the `Match` methods of the
matcher kinds), the route and router matching algorithms (`Route.Match`,
`Router.Match`) and the route registration operations (`Route.Name`,
`Route.NewRouter`, `Route.Host`, `Route.Path`, `Route.PathPrefix`).

Modelling conventions:
* Go strings are lists of characters (`Str`).
* Go maps with string keys are association lists; insertion overwrites.
* Go panics become `Except.error` values carrying the same information as
  the corresponding Go error message (`MuxError`).
* A compiled `*regexp.Regexp` built by `parseTemplate` is always of the
  shape `^ QuoteMeta(lit0) (p1) QuoteMeta(lit1) ... (pn) QuoteMeta(litn)`
  followed by `$` unless the template is a path prefix.  It is therefore
  modelled structurally by the literal runs `lits`, the group patterns
  `pats` and the `isPre` flag; `QuoteMeta(lit)` matches exactly `lit`, so
  matching is decomposition of the subject into literal runs and group
  texts (`tplMatchesB`), and `FindStringSubmatch` is the leftmost-first
  greedy decomposition (`extractCaptures`).
* The semantics of the group patterns themselves (a fragment of Go regexp
  syntax: bracket character classes with ranges and negation, `.`, plain
  characters, each optionally followed by `+`; this covers every pattern
  appearing in the package, including the two default patterns) is given
  by a small executable matcher (`patMatchB`).  Patterns outside this
  fragment match nothing.
* The per-request context store (`context.Namespace`, written through
  `ctx.Set`) is threaded explicitly through the matching functions as an
  `Option RouteVars` value: `ctx.Set req v` is `fun _ => some v`.
-/

namespace Gorilla

/-- Go strings are modelled as lists of characters. -/
abbrev Str := List Char

/-! ## A small regular-expression engine

Models the fragment of Go `regexp` syntax used by route-template variable
patterns: sequences of single-character items (a bracket class `[...]` or
`[^...]` with ranges, a plain character, or `.`), each optionally followed
by the greedy `+` quantifier. -/

/-- A character class: a negation flag and a list of inclusive ranges
(single characters are ranges of length one). -/
structure CClass where
  neg : Bool
  ranges : List (Char × Char)
deriving DecidableEq, Repr

/-- Membership of a character in a character class. -/
def CClass.memb (cc : CClass) (c : Char) : Bool :=
  let inR := cc.ranges.any (fun r => decide (r.1 ≤ c) && decide (c ≤ r.2))
  if cc.neg then !inR else inR

/-- One pattern item: a character class, possibly with a `+` quantifier. -/
structure PItem where
  cls : CClass
  plus : Bool
deriving DecidableEq, Repr

/-- Parse the body of a bracket class (after `[` and the optional `^`),
up to the closing `]`.  Returns the ranges and the rest of the pattern.
A class with a trailing or leading bare `-` is outside the modelled
fragment and is rejected. -/
def parseCCBody : Str → List (Char × Char) → Option (List (Char × Char) × Str)
  | [], _ => none
  | ']' :: rest, acc => some (acc.reverse, rest)
  | a :: '-' :: b :: rest, acc =>
      if b = ']' ∨ a = '-' ∨ b = '-' then none
      else parseCCBody rest ((a, b) :: acc)
  | a :: rest, acc =>
      if a = '-' then none else parseCCBody rest ((a, a) :: acc)

/-- Parse a bracket class starting right after the `[`. -/
def parseCC (s : Str) : Option (CClass × Str) :=
  match s with
  | '^' :: rest => (parseCCBody rest []).map (fun p => (⟨true, p.1⟩, p.2))
  | rest => (parseCCBody rest []).map (fun p => (⟨false, p.1⟩, p.2))

/-- Characters that are regexp metacharacters outside a bracket class; a
bare occurrence of one of these puts the pattern outside the modelled
fragment. -/
def isMeta (c : Char) : Bool :=
  c ∈ ['\\', '|', '(', ')', '*', '?', '{', '}', '^', '$', ']']

/-- Fuelled parser for a pattern (sequence of items).  The fuel only
serves termination; `parsePatItems` supplies enough fuel for the whole
pattern. -/
def parsePatItemsF : Nat → Str → Option (List PItem)
  | 0, _ => none
  | _, [] => some []
  | fuel + 1, '[' :: rest =>
    match parseCC rest with
    | none => none
    | some (cc, rest2) =>
      match rest2 with
      | '+' :: rest3 => (parsePatItemsF fuel rest3).map (⟨cc, true⟩ :: ·)
      | _ => (parsePatItemsF fuel rest2).map (⟨cc, false⟩ :: ·)
  | fuel + 1, '.' :: rest =>
    match rest with
    | '+' :: rest2 => (parsePatItemsF fuel rest2).map (⟨⟨true, [('\n', '\n')]⟩, true⟩ :: ·)
    | _ => (parsePatItemsF fuel rest).map (⟨⟨true, [('\n', '\n')]⟩, false⟩ :: ·)
  | fuel + 1, c :: rest =>
    if isMeta c ∨ c = '+' then none
    else
      match rest with
      | '+' :: rest2 => (parsePatItemsF fuel rest2).map (⟨⟨false, [(c, c)]⟩, true⟩ :: ·)
      | _ => (parsePatItemsF fuel rest).map (⟨⟨false, [(c, c)]⟩, false⟩ :: ·)

/-- Parse a variable pattern into its item sequence. -/
def parsePatItems (s : Str) : Option (List PItem) :=
  parsePatItemsF (s.length + 1) s

/-- Does the item sequence match the whole string?  `+` is one-or-more. -/
def itemsMatch : List PItem → Str → Bool
  | [], s => s.isEmpty
  | it :: items, s =>
    if it.plus then
      (List.range s.length).any (fun j =>
        ((s.take (j + 1)).all it.cls.memb) && itemsMatch items (s.drop (j + 1)))
    else
      match s with
      | [] => false
      | c :: rest => it.cls.memb c && itemsMatch items rest

/-- Does the pattern (a fragment of Go regexp syntax) match the whole
string?  This is both the semantics of a capture group `(patt)` inside a
compiled template regexp and of a compiled validator `^patt$` (for the
modelled fragment the two coincide).  Patterns outside the fragment match
nothing. -/
def patMatchB (p : Str) (s : Str) : Bool :=
  match parsePatItems p with
  | some items => itemsMatch items s
  | none => false

/-! ## Errors

One constructor per `panic` site of the package, carrying the data that
the corresponding Go format string interpolates. -/

inductive MuxError where
  | unbalancedBraces (tpl : Str)
  | badTemplatePart (part : Str)
  | dupVarName (name : Str)
  | missingRouteVar (name : Str)
  | badRouteVar (value pattern : Str)
  | emptyHostTemplate (tpl : Str)
  | emptyPathTemplate (tpl : Str)
  | emptyPathPreTemplate (tpl : Str)
  | dupRouteName (name : Str)
  | danglingRef
deriving DecidableEq, Repr

/-- `template[a:b]` (Go slice of a string). -/
def substr (s : Str) (a b : Nat) : Str := (s.take b).drop a

/-- Accumulator loop of `findAllVariableIndex`: scan the template tracking
brace nesting depth; each top-level `{...}` contributes the index pair of
its opening brace and one past its closing brace.  `none` signals
unbalanced braces (a `}` below level zero, or a nonzero level at the
end). -/
def favAux : Str → Nat → Nat → Nat → List (Nat × Nat) → Option (List (Nat × Nat))
  | [], _, level, _, acc => if level = 0 then some acc.reverse else none
  | c :: rest, i, level, idx, acc =>
    if c = '{' then
      favAux rest (i + 1) (level + 1) (if level + 1 = 1 then i else idx) acc
    else if c = '}' then
      if level = 0 then none
      else if level = 1 then favAux rest (i + 1) 0 idx ((idx, i + 1) :: acc)
      else favAux rest (i + 1) (level - 1) idx acc
    else favAux rest (i + 1) level idx acc

/-- `findAllVariableIndex` returns the index bounds of the route-template
variables, or the unbalanced-braces error. -/
def findAllVariableIndex (s : Str) : Except MuxError (List (Nat × Nat)) :=
  match favAux s 0 0 0 [] with
  | some pairs => .ok pairs
  | none => .error (.unbalancedBraces s)

/-- `strings.SplitN(seg, ":", 2)`: split at the first colon, if any. -/
def splitFirstColon : Str → Option (Str × Str)
  | [] => none
  | c :: rest =>
    if c = ':' then some ([], rest)
    else (splitFirstColon rest).map (fun p => (c :: p.1, p.2))

/-- Name and pattern of one variable segment: the part before the first
colon and the part after it, or the whole segment paired with the default
pattern when there is no colon. -/
def parseVar (seg dflt : Str) : Str × Str :=
  match splitFirstColon seg with
  | none => (seg, dflt)
  | some np => np

/-- The result of `parseTemplate`, i.e. the Go `parsedTemplate` struct.
The compiled `Regexp` is represented structurally by `lits` (the
regexp-quoted literal runs, one more than the number of variables),
`pats` (the capture-group patterns, one per variable, in template order)
and `isPre` (true when no `$` anchor was appended, i.e. for path
prefixes).  The `Reverse` format string is recovered by
`parsedTemplate.reverseFmt` and the `VarsR` validators by
`parsedTemplate.varsR` (the compiled `^patt$` of the source; for the
modelled pattern fragment, anchored matching of `patt` itself). -/
structure parsedTemplate where
  lits : List Str
  pats : List Str
  isPre : Bool
  varsN : List Str
deriving DecidableEq, Repr

/-- The per-variable validator patterns (`VarsR` of the source): the same
pattern texts that `parseTemplate` interpolates into `^%s$`. -/
def parsedTemplate.varsR (t : parsedTemplate) : List Str := t.pats

/-- Rebuild the `Reverse` format string from the literal runs: the source
appends `raw ++ "%s"` for each variable and the trailing raw at the end,
so `Reverse` is the literal runs joined by `%s`. -/
def reverseFromLits : List Str → Str
  | [] => []
  | [l] => l
  | l :: l2 :: ls => l ++ '%' :: 's' :: reverseFromLits (l2 :: ls)

/-- The `Reverse` format string of a parsed template. -/
def parsedTemplate.reverseFmt (t : parsedTemplate) : Str :=
  reverseFromLits t.lits

/-- The main loop of `parseTemplate` over the variable index pairs,
threading the cursor `endPos` and the duplicate-checking name list
(`names`; `none` models a nil `*[]string`, which disables the check).
Returns the literal runs (one per variable; the trailing run is added by
`parseTemplate`), the group patterns and the variable names. -/
def parseLoop (template dflt : Str) :
    List (Nat × Nat) → Nat → Option (List Str) →
    Except MuxError (List Str × List Str × List Str)
  | [], _, _ => .ok ([], [], [])
  | (a, b) :: rest, endPos, names =>
    let raw := substr template endPos a
    let np := parseVar (substr template (a + 1) (b - 1)) dflt
    if np.1 = [] ∨ np.2 = [] then .error (.badTemplatePart (substr template a b))
    else
      match names with
      | some ns =>
        if ns.contains np.1 then .error (.dupVarName np.1)
        else
          match parseLoop template dflt rest b (some (ns ++ [np.1])) with
          | .error e => .error e
          | .ok (ls, ps, vs) => .ok (raw :: ls, np.2 :: ps, np.1 :: vs)
      | none =>
        match parseLoop template dflt rest b none with
        | .error e => .error e
        | .ok (ls, ps, vs) => .ok (raw :: ls, np.2 :: ps, np.1 :: vs)

/-- `parseTemplate(template, defaultPattern, prefix, names)`: compile a
route template.  Faithful to the source: scan the variable indices, run
the loop, then append the trailing literal run (`template[end:]`, where
`end` is the close of the last variable, or `0` with no variables). -/
def parseTemplate (template dflt : Str) (isPre : Bool)
    (names : Option (List Str)) : Except MuxError parsedTemplate :=
  match findAllVariableIndex template with
  | .error e => .error e
  | .ok pairs =>
    match parseLoop template dflt pairs 0 names with
    | .error e => .error e
    | .ok (ls, ps, vs) =>
      let lastEnd := match pairs.getLast? with
        | some pr => pr.2
        | none => 0
      .ok { lits := ls ++ [template.drop lastEnd], pats := ps, isPre := isPre,
            varsN := vs }

/-! ## Semantics of a compiled template regexp

The compiled regexp is `^ lit0 (p1) lit1 ... (pn) litn` with a final `$`
unless `isPre`.  `MatchString` asks whether some decomposition of the
subject into the literal runs and group texts exists; `FindStringSubmatch`
returns the capture groups of the leftmost-first match, which for the
all-greedy modelled pattern fragment picks, left to right, the longest
group text that still lets the remainder match. -/

/-- `Regexp.MatchString` for a compiled template: search for a
decomposition of `s` into the literal runs and group texts. -/
def tplMatchesB : List Str → List Str → Bool → Str → Bool
  | [lit], [], isPre, s => if isPre then lit.isPrefixOf s else s == lit
  | lit :: l2 :: ls, p :: ps, isPre, s =>
    lit.isPrefixOf s &&
      (List.range ((s.drop lit.length).length + 1)).any (fun k =>
        patMatchB p ((s.drop lit.length).take k) &&
          tplMatchesB (l2 :: ls) ps isPre ((s.drop lit.length).drop k))
  | _, _, _, _ => false

/-- `Regexp.MatchString` on a parsed template. -/
def tplMatchesStr (t : parsedTemplate) (s : Str) : Bool :=
  tplMatchesB t.lits t.pats t.isPre s

/-- The capture groups of `Regexp.FindStringSubmatch` (without the whole
match, which the package only uses via `matches[k+1]`): each group
greedily takes the longest text that still lets the rest of the regexp
match, backtracking left to right. -/
def extractCaptures : List Str → List Str → Bool → Str → Option (List Str)
  | [lit], [], isPre, s =>
    if (if isPre then lit.isPrefixOf s else s == lit) then some [] else none
  | lit :: l2 :: ls, p :: ps, isPre, s =>
    if lit.isPrefixOf s then
      ((List.range ((s.drop lit.length).length + 1)).reverse).findSome? (fun k =>
        if patMatchB p ((s.drop lit.length).take k) then
          (extractCaptures (l2 :: ls) ps isPre ((s.drop lit.length).drop k)).map
            (((s.drop lit.length).take k) :: ·)
        else none)
    else none
  | _, _, _, _ => none

/-- `FindStringSubmatch` capture groups on a parsed template. -/
def extractStr (t : parsedTemplate) (s : Str) : Option (List Str) :=
  extractCaptures t.lits t.pats t.isPre s

/-- The intended decomposition: literal runs interleaved with group
texts, `lit0 ++ v1 ++ lit1 ++ ... ++ vn ++ litn`. -/
def interleave : List Str → List Str → Str
  | [], _ => []
  | lit :: _, [] => lit
  | lit :: ls, v :: vs => lit ++ (v ++ interleave ls vs)

/-! ## `fmt.Sprintf` (the fragment relevant to `reverseRoute`)

The `Reverse` format string contains the `%s` verbs inserted by
`parseTemplate` and, verbatim, whatever characters the template literal
runs contain — including any `%` the user wrote there.  The model covers
the behaviour of Go `fmt` on: ordinary characters, `%%`, `%s`/`%v` on a
string argument, any verb with too few arguments (`%!x(MISSING)`), a
trailing bare `%` (`%!(NOVERB)`), and any other single-letter verb
applied to a string argument (`%!x(string=value)`).  Width/precision
flags and the remaining string verbs (`q`, `x`, `X`) are not modelled;
no theorem below depends on them. -/

def sprintfS : Str → List Str → Str
  | [], _ => []
  | c :: rest, args =>
    if c = '%' then
      match rest, args with
      | [], _ => "%!(NOVERB)".data
      | d :: rest2, args2 =>
        if d = '%' then '%' :: sprintfS rest2 args2
        else
          match args2 with
          | [] => "%!".data ++ d :: "(MISSING)".data ++ sprintfS rest2 []
          | a :: args3 =>
            if d = 's' ∨ d = 'v' then a ++ sprintfS rest2 args3
            else "%!".data ++ d :: "(string=".data ++ a ++ ")".data ++
              sprintfS rest2 args3
    else c :: sprintfS rest args

/-! ## Reverse URL building (`reverseRoute`) -/

/-- Association-list lookup (Go string map read). -/
def lookupStr (m : List (Str × Str)) (k : Str) : Option Str :=
  match m.find? (fun p => p.1 == k) with
  | some p => some p.2
  | none => none

/-- Multimap lookup (Go `map[string][]string` read). -/
def lookupMulti (m : List (Str × List Str)) (k : Str) : Option (List Str) :=
  match m.find? (fun p => p.1 == k) with
  | some p => some p.2
  | none => none

/-- The first loop of `reverseRoute`: look up each template variable in
`values`, in template order, failing with the missing-route-variable
error on the first absent one. -/
def lookupVals (values : List (Str × Str)) : List Str → Except MuxError (List Str)
  | [] => .ok []
  | v :: rest =>
    match lookupStr values v with
    | none => .error (.missingRouteVar v)
    | some x =>
      match lookupVals values rest with
      | .error e => .error e
      | .ok xs => .ok (x :: xs)

/-- The diagnostic fallback of `reverseRoute`: scan the variables in
order and report the first whose value fails its own compiled validator
`^patt$` (the error carries the value and the validator source, as the Go
code formats them). -/
def firstBadVar (values : List (Str × Str)) : List Str → List Str → Option MuxError
  | v :: vs, p :: ps =>
    if ! patMatchB p ((lookupStr values v).getD []) then
      some (.badRouteVar ((lookupStr values v).getD []) (('^' :: p) ++ ['$']))
    else firstBadVar values vs ps
  | _, _ => none

/-- `reverseRoute(tpl, values)`: build a URL part from a parsed template
and a variable map.  Faithful to the source: gather the values in
template order (missing key fails), substitute them into the `Reverse`
format string, check the result against the full compiled regexp and, if
that fails, look for an individual bad variable to blame; with no bad
individual variable the (unchecked) result is returned anyway. -/
def reverseRoute (tpl : parsedTemplate) (values : List (Str × Str)) :
    Except MuxError Str :=
  match lookupVals values tpl.varsN with
  | .error e => .error e
  | .ok urlValues =>
    let url := sprintfS tpl.reverseFmt urlValues
    if tplMatchesStr tpl url then .ok url
    else
      match firstBadVar values tpl.varsN tpl.varsR with
      | some e => .error e
      | none => .ok url

/-! ## Requests and plain matchers -/

/-- The request abstraction the matchers consume: scheme, host and path of
the URL, the method, the query multimap (`URL.Query()`) and the header
multimap.  As in Go `http`, header keys are stored canonicalized. -/
structure RequestT where
  method : Str
  urlScheme : Str
  urlHost : Str
  urlPath : Str
  urlQuery : List (Str × List Str)
  headers : List (Str × List Str)

/-- `matchInArray`: membership of a string in a string slice. -/
def matchInArray (arr : List Str) (value : Str) : Bool :=
  arr.any (fun v => v == value)

/-- Helper loop of `http.CanonicalHeaderKey`: upper-case a letter at the
start or after a hyphen, lower-case the rest. -/
def canonHK : Str → Bool → Str
  | [], _ => []
  | c :: rest, up => (if up then c.toUpper else c.toLower) :: canonHK rest (c = '-')

/-- `http.CanonicalHeaderKey`. -/
def canonicalHeaderKey (s : Str) : Str := canonHK s true

/-- `matchMap` (file `matchers.go`): every configured key, canonicalized
for headers, must exist in the request multimap; a non-empty configured
value must additionally equal one of the request values for that key.  An
empty configured value is satisfied by mere existence of the key. -/
def matchMap (toCheck : List (Str × Str)) (toMatch : List (Str × List Str))
    (canonicalKey : Bool) : Bool :=
  match toCheck with
  | [] => true
  | (k, v) :: rest =>
    match lookupMulti toMatch (if canonicalKey then canonicalHeaderKey k else k) with
    | none => false
    | some values =>
      if v ≠ [] then
        values.contains v && matchMap rest toMatch canonicalKey
      else matchMap rest toMatch canonicalKey

/-! ## Routes, matchers and the matching algorithm -/

/-- The variable map stored for a request (`RouteVars`), an association
list whose earlier entries shadow later ones. -/
abbrev RouteVars := List (Str × Str)

/-- Go map assignment `m[k] = v`. -/
def mapInsert (m : RouteVars) (k v : Str) : RouteVars :=
  (k, v) :: m.filter (fun p => ! (p.1 == k))

/-- `for k, v := range VarsN { vars[v] = matches[k+1] }`: assign the k-th
capture to the k-th variable name, in order. -/
def setVars (vars : RouteVars) (names caps : List Str) : RouteVars :=
  (names.zip caps).foldl (fun m p => mapInsert m p.1 p.2) vars

/-! A route (`Route`) and the matcher variants (`routeMatcher`
implementations).  The handler and the back-reference to the owning
router play no part in matching and are omitted here; name registration,
which does use the back-reference, is modelled separately below.  The
sub-router matcher carries the nested router's ordered route list (its
name table is irrelevant to matching). -/
mutual
inductive RouteData where
  | mk (hostTemplate : Option parsedTemplate) (pathTemplate : Option parsedTemplate)
       (matchers : List Matcher)
inductive Matcher where
  | custom (f : RequestT → Bool)
  | header (headers : List (Str × Str))
  | methodm (methods : List Str)
  | query (queries : List (Str × Str))
  | scheme (schemes : List Str)
  | subrouter (routes : List RouteData)
end

def RouteData.hostTemplate : RouteData → Option parsedTemplate
  | .mk h _ _ => h

def RouteData.pathTemplate : RouteData → Option parsedTemplate
  | .mk _ p _ => p

def RouteData.matchers : RouteData → List Matcher
  | .mk _ _ ms => ms

/-- One template step of `Route.Match`: `some none` when there is no
template (the Go `nil` slice of matches), `none` when the template's
regexp rejects the subject, `some (some caps)` when it matches with
capture groups `caps`. -/
def tplStep (t : Option parsedTemplate) (s : Str) : Option (Option (List Str)) :=
  match t with
  | none => some none
  | some tpl =>
    match extractStr tpl s with
    | none => none
    | some caps => some (some caps)

/-- The variable map a successful `Route.Match` stores: host captures
zipped with the host template's names, then path captures with the path
template's names, merged into one flat map. -/
def buildVars (hostT : Option parsedTemplate) (hostCaps : Option (List Str))
    (pathT : Option parsedTemplate) (pathCaps : Option (List Str)) : RouteVars :=
  let v1 : RouteVars :=
    match hostCaps, hostT with
    | some caps, some t => setVars [] t.varsN caps
    | _, _ => []
  match pathCaps, pathT with
  | some caps, some t => setVars v1 t.varsN caps
  | _, _ => v1

/-! The matching algorithm, with the per-request context store threaded
explicitly (third component of the result is `ok`; second is the matched
route, `none` for the plain matchers which never resolve one).

`routeMatchGo` is `Route.Match`: host template, then path template (each
failure short-circuits with the store untouched), then the matchers in
registration order (first failure aborts; a non-nil resolved route
replaces the matched route and stops the scan), and on success the
variable map built from the route's own templates is stored (`ctx.Set`).
`matchersGo` is the matcher loop, `matcherGo` the individual
`Match` methods of `matchers.go`, and `routerMatchGo` is `Router.Match`:
first route, in registration order, whose `Match` succeeds. -/
mutual
def routeMatchGo (r : RouteData) (req : RequestT) (st : Option RouteVars) :
    Option RouteVars × Option RouteData × Bool :=
  match r with
  | .mk hostT pathT ms =>
    match tplStep hostT req.urlHost with
    | none => (st, none, false)
    | some hostCaps =>
      match tplStep pathT req.urlPath with
      | none => (st, none, false)
      | some pathCaps =>
        match matchersGo ms req st with
        | (_, rv, true) =>
          (some (buildVars hostT hostCaps pathT pathCaps),
           some (match rv with | some x => x | none => .mk hostT pathT ms), true)
        | (st2, _, false) => (st2, none, false)

def matchersGo (ms : List Matcher) (req : RequestT) (st : Option RouteVars) :
    Option RouteVars × Option RouteData × Bool :=
  match ms with
  | [] => (st, none, true)
  | m :: rest =>
    match matcherGo m req st with
    | (st2, some r2, true) => (st2, some r2, true)
    | (st2, none, true) => matchersGo rest req st2
    | (st2, _, false) => (st2, none, false)

def matcherGo (m : Matcher) (req : RequestT) (st : Option RouteVars) :
    Option RouteVars × Option RouteData × Bool :=
  match m with
  | .custom f => (st, none, f req)
  | .header hs => (st, none, matchMap hs req.headers true)
  | .methodm mths => (st, none, matchInArray mths req.method)
  | .query qs => (st, none, matchMap qs req.urlQuery false)
  | .scheme ss => (st, none, matchInArray ss req.urlScheme)
  | .subrouter routes => routerMatchGo routes req st

def routerMatchGo (routes : List RouteData) (req : RequestT) (st : Option RouteVars) :
    Option RouteVars × Option RouteData × Bool :=
  match routes with
  | [] => (st, none, false)
  | r :: rest =>
    match routeMatchGo r req st with
    | (st2, rv, true) => (st2, rv, true)
    | (st2, _, false) => routerMatchGo rest req st2
end

/-! ## Template-setting builders (`Route.Host`, `Route.Path`,
`Route.PathPrefix`) -/

/-- `variableNames`: the concatenated variable names of the given
templates, skipping nil templates and templates without variables.  The
source always returns a fresh non-nil slice pointer, so callers of
`parseTemplate` built from it always have the duplicate check enabled. -/
def variableNames (ts : List (Option parsedTemplate)) : List Str :=
  ts.foldl
    (fun acc t =>
      match t with
      | some tpl => if tpl.varsN.length ≠ 0 then acc ++ tpl.varsN else acc
      | none => acc)
    []

/-- An empty route, as built by `newRoute`. -/
def newRouteData : RouteData := .mk none none []

/-- `Route.Host`: reject an empty template, else compile it with default
pattern `[^.]+`, checking its variable names against the route's path
template. -/
def routeHost (r : RouteData) (template : Str) : Except MuxError RouteData :=
  if template = [] then .error (.emptyHostTemplate template)
  else
    match parseTemplate template "[^.]+".data false
        (some (variableNames [r.pathTemplate])) with
    | .error e => .error e
    | .ok tpl => .ok (.mk (some tpl) r.pathTemplate r.matchers)

/-- `Route.Path`: reject an empty or non-slash-initial template, else
compile it with default pattern `[^/]+`, checking its variable names
against the route's host template. -/
def routePath (r : RouteData) (template : Str) : Except MuxError RouteData :=
  if template = [] ∨ template.head? ≠ some '/' then .error (.emptyPathTemplate template)
  else
    match parseTemplate template "[^/]+".data false
        (some (variableNames [r.hostTemplate])) with
    | .error e => .error e
    | .ok tpl => .ok (.mk r.hostTemplate (some tpl) r.matchers)

/-- `Route.PathPrefix`: like `Route.Path` but compiled as a prefix (no `$`
anchor) and — exactly as in the source — checking variable names against
`variableNames(r.pathTemplate)`, i.e. the path template being replaced,
not the host template. -/
def routePathPre (r : RouteData) (template : Str) : Except MuxError RouteData :=
  if template = [] ∨ template.head? ≠ some '/' then
    .error (.emptyPathPreTemplate template)
  else
    match parseTemplate template "[^/]+".data true
        (some (variableNames [r.pathTemplate])) with
    | .error e => .error e
    | .ok tpl => .ok (.mk r.hostTemplate (some tpl) r.matchers)

/-! ## Router trees and name registration (`Route.Name`,
`Route.NewRouter`)

Routers and routes live in arenas (lists indexed by identifiers) so that
the Go pointer graph — each route points at its owning router, each
sub-router at the root of its tree — can be modelled directly.  Only the
data that name registration touches is carried: matching works on
`RouteData` above. -/

/-- A router's registration-time data: its routes (in order), its name
table (used only on the root router of a tree) and its `rootRouter`
back-reference (`none` on a root; `Route.NewRouter` always points it
directly at the true root). -/
structure RouterData where
  Routes : List Nat
  NamedRoutes : List (Str × Nat)
  rootRouter : Option Nat
deriving DecidableEq, Repr

/-- A registered route: the identifier of its owning router. -/
structure RouteReg where
  router : Nat
deriving DecidableEq, Repr

/-- The arena state: all routers and routes created so far. -/
structure MuxState where
  routers : List RouterData
  routes : List RouteReg
deriving DecidableEq, Repr

/-- Apply `f` to the router at index `i` (no-op when out of range). -/
def updateRouter (rs : List RouterData) (i : Nat) (f : RouterData → RouterData) :
    List RouterData :=
  match rs.get? i with
  | some rd => rs.set i (f rd)
  | none => rs

/-- `Router.root()`: a router's own identifier when `rootRouter` is nil,
else the router `rootRouter` points at (a single dereference, as in the
source). -/
def rootOf (s : MuxState) (rid : Nat) : Nat :=
  match s.routers.get? rid with
  | some rd =>
    match rd.rootRouter with
    | none => rid
    | some rootId => rootId
  | none => rid

/-- `NewRouter()`: append a fresh root router; returns its identifier. -/
def MuxState.newRouter (s : MuxState) : MuxState × Nat :=
  ({ s with routers :=
      s.routers ++ [{ Routes := [], NamedRoutes := [], rootRouter := none }] },
   s.routers.length)

/-- `Router.NewRoute()`: append a fresh route owned by router `rid` and
record it in that router's route list; returns the route identifier. -/
def MuxState.newRoute (s : MuxState) (rid : Nat) : MuxState × Nat :=
  ({ routers := updateRouter s.routers rid
       (fun rd => { rd with Routes := rd.Routes ++ [s.routes.length] }),
     routes := s.routes ++ [{ router := rid }] },
   s.routes.length)

/-- `Route.NewRouter()`: append a sub-router whose `rootRouter` points at
the root of the route's owning router; returns the new router's
identifier.  (The source also registers the new router as a matcher on
the route, which is irrelevant to naming.) -/
def MuxState.routeNewRouter (s : MuxState) (routeId : Nat) : MuxState × Nat :=
  match s.routes.get? routeId with
  | none => (s, s.routers.length)
  | some rt =>
    ({ s with routers := s.routers ++
        [{ Routes := [], NamedRoutes := [], rootRouter := some (rootOf s rt.router) }] },
     s.routers.length)

/-- `Route.Name(name)`: find the root of the route's owning router; a name
already present in the root's table is the duplicate-route-name panic,
otherwise the route is registered there under the name. -/
def MuxState.routeName (s : MuxState) (routeId : Nat) (name : Str) :
    Except MuxError MuxState :=
  match s.routes.get? routeId with
  | none => .error .danglingRef
  | some rt =>
    let rootId := rootOf s rt.router
    match s.routers.get? rootId with
    | none => .error .danglingRef
    | some rootRd =>
      if (rootRd.NamedRoutes.find? (fun p => p.1 == name)).isSome then
        .error (.dupRouteName name)
      else
        .ok { s with routers := (updateRouter s.routers rootId
          (fun rd => { rd with NamedRoutes := rd.NamedRoutes ++ [(name, routeId)] })) }

/-- Look a name up in the name table of router `rid`. -/
def namedLookup (s : MuxState) (rid : Nat) (n : Str) : Option Nat :=
  match s.routers.get? rid with
  | some rd => (rd.NamedRoutes.find? (fun p => p.1 == n)).map (·.2)
  | none => none

/-! ## Concrete fixtures used by the witness and counterexample theorems -/

/-- The values, in template order, that `reverseRoute` substitutes: each
variable's binding (defaulting to the empty string, which the success
theorems never rely on). -/
def bindingsVals (values : List (Str × Str)) (t : parsedTemplate) : List Str :=
  t.varsN.map (fun n => (lookupStr values n).getD [])

/-- The compiled form of `/articles/{category}/{id:[0-9]+}`. -/
def tplArt : parsedTemplate :=
  { lits := ["/articles/".data, "/".data, []],
    pats := ["[^/]+".data, "[0-9]+".data], isPre := false,
    varsN := ["category".data, "id".data] }

/-- The compiled form of `/{x}{y}` (two adjacent default variables). -/
def tplXY : parsedTemplate :=
  { lits := ["/".data, [], []], pats := ["[^/]+".data, "[^/]+".data],
    isPre := false, varsN := [['x'], ['y']] }

/-- The compiled form of the host template `{sub}.domain.com`. -/
def tplSub : parsedTemplate :=
  { lits := [[], ".domain.com".data], pats := ["[^.]+".data], isPre := false,
    varsN := ["sub".data] }

/-- The compiled form of the variable-free path template `/a%b`. -/
def tplPct : parsedTemplate :=
  { lits := ["/a%b".data], pats := [], isPre := false, varsN := [] }

/-- The compiled form of the variable-free host template `www.domain.com`. -/
def tplWWW : parsedTemplate :=
  { lits := ["www.domain.com".data], pats := [], isPre := false, varsN := [] }

/-- The compiled form of the variable-free path template `/products/`. -/
def tplProducts : parsedTemplate :=
  { lits := ["/products/".data], pats := [], isPre := false, varsN := [] }

/-- The compiled form of the path template `/products/{key}`. -/
def tplKey : parsedTemplate :=
  { lits := ["/products/".data, []], pats := ["[^/]+".data], isPre := false,
    varsN := ["key".data] }

/-- The inner route of the sub-routing fixture: `Path("/products/{key}")`. -/
def innerRouteW : RouteData := .mk none (some tplKey) []

/-- The outer route of the sub-routing fixture: `Host("www.domain.com")`
with a sub-router owning `innerRouteW`. -/
def outerRouteW : RouteData := .mk (some tplWWW) none [.subrouter [innerRouteW]]

/-- A request for `http://www.domain.com/products/42`. -/
def reqW : RequestT :=
  { method := "GET".data, urlScheme := "http".data,
    urlHost := "www.domain.com".data, urlPath := "/products/42".data,
    urlQuery := [], headers := [] }

/-- A route matching only path `/products/`. -/
def routeA : RouteData := .mk none (some tplProducts) []

/-- An unconstrained route (matches every request). -/
def routeB : RouteData := .mk none none []

/-- A request for `http://www.domain.com/products/`. -/
def reqProducts : RequestT :=
  { method := "GET".data, urlScheme := "http".data,
    urlHost := "www.domain.com".data, urlPath := "/products/".data,
    urlQuery := [], headers := [] }

/-- The bindings `category = technology, id = 42`. -/
def artBindings : List (Str × Str) :=
  [("category".data, "technology".data), ("id".data, "42".data)]

/-- The bindings `x = ab, y = cd`. -/
def xyBindings : List (Str × Str) := [(['x'], "ab".data), (['y'], "cd".data)]

/-- Name-registration fixture: a tree of a root router (0) with one route
(0), a sub-router (1) created beneath that route, and a second route (1)
owned by the sub-router. -/
def treeState : MuxState :=
  let s0 : MuxState :=
    { routers := [{ Routes := [], NamedRoutes := [], rootRouter := none }],
      routes := [] }
  let s1 := (s0.newRoute 0).1
  let s2 := (s1.routeNewRouter 0).1
  (s2.newRoute 1).1

/-- `treeState` after route 0 was registered under the name `foo`. -/
def namedState : MuxState :=
  { routers :=
      [{ Routes := [0], NamedRoutes := [("foo".data, 0)], rootRouter := none },
       { Routes := [1], NamedRoutes := [], rootRouter := some 0 }],
    routes := [{ router := 0 }, { router := 1 }] }

/-- The compiled form of the host template `{x}.domain.com`. -/
def tplXHost : parsedTemplate :=
  { lits := [[], ".domain.com".data], pats := ["[^.]+".data], isPre := false,
    varsN := [['x']] }

/-- The compiled form of the path prefix template `/{x}/`. -/
def tplXPathPre : parsedTemplate :=
  { lits := ["/".data, "/".data], pats := ["[^/]+".data], isPre := true,
    varsN := [['x']] }

/-- The compiled form of the variable-free path template `/articles`. -/
def tplArtLit : parsedTemplate :=
  { lits := ["/articles".data], pats := [], isPre := false, varsN := [] }

/-- The compiled form of the path template `/{x}`. -/
def tplXPath : parsedTemplate :=
  { lits := ["/".data, []], pats := ["[^/]+".data], isPre := false,
    varsN := [['x']] }

/-- The compiled form of the path prefix template `/{x}`. -/
def tplXPre : parsedTemplate :=
  { lits := ["/".data, []], pats := ["[^/]+".data], isPre := true,
    varsN := [['x']] }

/-- A request whose URL host is `a.domain.com`. -/
def reqSubA : RequestT :=
  { method := "GET".data, urlScheme := "http".data,
    urlHost := "a.domain.com".data, urlPath := "/".data,
    urlQuery := [], headers := [] }

/-- A request whose URL host is `a.b.domain.com`. -/
def reqSubAB : RequestT :=
  { method := "GET".data, urlScheme := "http".data,
    urlHost := "a.b.domain.com".data, urlPath := "/".data,
    urlQuery := [], headers := [] }

/-! ## Helper lemmas -/

/-- `matchMap` succeeds exactly when every configured pair is satisfied:
the (canonicalized, for headers) key exists in the request multimap and a
non-empty configured value occurs among the request values. -/
theorem matchMap_eq_true_iff (toCheck : List (Str × Str))
    (toMatch : List (Str × List Str)) (canon : Bool) :
    matchMap toCheck toMatch canon = true ↔
      ∀ kv ∈ toCheck, ∃ vs,
        lookupMulti toMatch (if canon then canonicalHeaderKey kv.1 else kv.1) =
          some vs ∧ (kv.2 ≠ [] → kv.2 ∈ vs) := by
  induction toCheck with
  | nil => simp [matchMap]
  | cons kv rest ih =>
    obtain ⟨k, v⟩ := kv
    rw [matchMap]
    cases h : lookupMulti toMatch (if canon then canonicalHeaderKey k else k) with
    | none =>
      simp only [Bool.false_eq_true, false_iff, List.mem_cons, not_forall]
      refine ⟨(k, v), Or.inl rfl, ?_⟩
      rintro ⟨vs, hvs, -⟩
      have hvs2 : lookupMulti toMatch
          (if canon then canonicalHeaderKey k else k) = some vs := hvs
      rw [h] at hvs2
      exact Option.noConfusion hvs2
    | some vs =>
      by_cases hv : v = []
      · subst hv
        simp only [ih, List.mem_cons, ne_eq, not_true_eq_false, if_false]
        constructor
        · rintro hall kv2 (rfl | hkv2)
          · exact ⟨vs, h, by simp⟩
          · exact hall kv2 hkv2
        · intro hall kv2 hkv2
          exact hall kv2 (Or.inr hkv2)
      · dsimp only
        rw [if_pos hv]
        simp only [Bool.and_eq_true, ih, List.mem_cons]
        constructor
        · rintro ⟨hcont, hall⟩ kv2 (rfl | hkv2)
          · exact ⟨vs, h, fun _ => List.elem_iff.mp hcont⟩
          · exact hall kv2 hkv2
        · intro hall
          refine ⟨?_, fun kv2 hkv2 => hall kv2 (Or.inr hkv2)⟩
          obtain ⟨vs2, hvs2, hmem⟩ := hall (k, v) (Or.inl rfl)
          have hvs3 : lookupMulti toMatch
              (if canon then canonicalHeaderKey k else k) = some vs2 := hvs2
          rw [h] at hvs3
          cases hvs3
          exact List.elem_iff.mpr (hmem hv)

/-- `updateRouter` read-back: reading index `j` after updating index `i`
gives the updated element exactly at `i`. -/
theorem get?_updateRouter (rs : List RouterData) (i : Nat)
    (f : RouterData → RouterData) (j : Nat) :
    (updateRouter rs i f).get? j =
      if i = j then (rs.get? j).map f else rs.get? j := by
  unfold updateRouter
  cases hg : rs.get? i with
  | none =>
    by_cases hij : i = j
    · subst hij
      rw [if_pos rfl, hg]
      rfl
    · rw [if_neg hij]
  | some rd =>
    have hi : i < rs.length := by
      rw [List.get?_eq_getElem?] at hg
      exact (List.getElem?_eq_some.mp hg).1
    have hg2 : rs[i] = rd := by
      rw [List.get?_eq_getElem?] at hg
      exact (List.getElem?_eq_some.mp hg).2
    rw [List.get?_eq_getElem?, List.getElem?_set]
    by_cases hij : i = j
    · subst hij
      simp [hi, hg, hg2]
    · simp [hij, List.get?_eq_getElem?]

/-- Updating a router in a way that keeps its `rootRouter` field does not
change where `root()` points, for any router. -/
theorem rootOf_updateRouter (s : MuxState) (i : Nat) (f : RouterData → RouterData)
    (hf : ∀ rd, (f rd).rootRouter = rd.rootRouter) (rid : Nat) :
    rootOf { s with routers := updateRouter s.routers i f } rid = rootOf s rid := by
  unfold rootOf
  dsimp only
  rw [get?_updateRouter]
  by_cases hij : i = rid
  · rw [if_pos hij]
    cases hg : s.routers.get? rid with
    | none => rfl
    | some rd =>
      dsimp only [Option.map]
      rw [hf rd]
  · rw [if_neg hij]

/-! ## The claims -/

/-- C2.  For every header matcher and every query matcher and every
request: the matcher accepts exactly when every configured key (after
canonicalization for headers, verbatim for queries) is present in the
request's multimap and, unless the configured value is the empty string,
at least one of the request's values for that key equals it exactly; an
empty configured value is satisfied by mere presence of the key. -/
theorem C2_header_query_matchers (hs qs : List (Str × Str)) (req : RequestT)
    (st : Option RouteVars) :
    ((matcherGo (.header hs) req st).2.2 = true ↔
      ∀ kv ∈ hs, ∃ vs, lookupMulti req.headers (canonicalHeaderKey kv.1) = some vs ∧
        (kv.2 ≠ [] → kv.2 ∈ vs)) ∧
    ((matcherGo (.query qs) req st).2.2 = true ↔
      ∀ kv ∈ qs, ∃ vs, lookupMulti req.urlQuery kv.1 = some vs ∧
        (kv.2 ≠ [] → kv.2 ∈ vs)) := by
  constructor
  · have h := matchMap_eq_true_iff hs req.headers true
    simpa [matcherGo] using h
  · have h := matchMap_eq_true_iff qs req.urlQuery false
    simpa [matcherGo] using h

/-- C3.  Setting `Host("{x}.domain.com")` and then
`PathPrefix("/{x}/")` on the same route is accepted by the code — the
`PathPrefix` call checks the new names only against the route's previous
*path* template, not the host template — leaving the route's combined
host+path variable set with the duplicate name `x`; the symmetric
`Path("/{x}")` call on the same route does fail with the
duplicate-variable-name error, showing the missing check in
`PathPrefix`. -/
theorem C3_path_pre_skips_host_variable_check :
    ∃ r1 r2, routeHost newRouteData "{x}.domain.com".data = .ok r1 ∧
      routePathPre r1 "/{x}/".data = .ok r2 ∧
      r2.hostTemplate = some tplXHost ∧ r2.pathTemplate = some tplXPathPre ∧
      tplXHost.varsN = [['x']] ∧ tplXPathPre.varsN = [['x']] ∧
      routePath r1 "/{x}".data = .error (.dupVarName ['x']) :=
  ⟨.mk (some tplXHost) none [], .mk (some tplXHost) (some tplXPathPre) [],
    rfl, rfl, rfl, rfl, rfl, rfl, rfl⟩

/-- C10.  In any router-tree state, if two routes belong to the same tree
(their owning routers resolve to the same root) then after one is
successfully registered under a name, registering the other under the
same name fails with the duplicate-route-name error; and the successful
registration stored the first route under that name in the root's
table. -/
theorem C10_duplicate_name (s : MuxState) (r1 r2 : Nat) (n : Str)
    (rt1 rt2 : RouteReg) (s1 : MuxState)
    (h1 : s.routes.get? r1 = some rt1) (h2 : s.routes.get? r2 = some rt2)
    (hsame : rootOf s rt1.router = rootOf s rt2.router)
    (hok : s.routeName r1 n = .ok s1) :
    s1.routeName r2 n = .error (.dupRouteName n) ∧
    namedLookup s1 (rootOf s rt2.router) n = some r1 := by
  unfold MuxState.routeName at hok
  rw [h1] at hok
  dsimp only at hok
  cases hroot : s.routers.get? (rootOf s rt1.router) with
  | none =>
    rw [hroot] at hok
    exact absurd hok (by simp)
  | some rootRd =>
    rw [hroot] at hok
    dsimp only at hok
    by_cases hfind : (rootRd.NamedRoutes.find? (fun p => p.1 == n)).isSome = true
    · rw [if_pos hfind] at hok
      exact absurd hok (by simp)
    · rw [if_neg hfind] at hok
      have hs1 : s1 = { s with routers := (updateRouter s.routers (rootOf s rt1.router)
          (fun rd => { rd with NamedRoutes := rd.NamedRoutes ++ [(n, r1)] })) } := by
        cases hok
        rfl
      subst hs1
      have hfnone : rootRd.NamedRoutes.find? (fun p => p.1 == n) = none := by
        cases hfe : rootRd.NamedRoutes.find? (fun p => p.1 == n) with
        | none => rfl
        | some x =>
          rw [hfe] at hfind
          exact absurd rfl hfind
      have hroot2 : rootOf { s with routers := (updateRouter s.routers
            (rootOf s rt1.router)
            (fun rd => { rd with NamedRoutes := rd.NamedRoutes ++ [(n, r1)] })) }
            rt2.router = rootOf s rt1.router := by
        rw [rootOf_updateRouter s (rootOf s rt1.router)
          (fun rd => { rd with NamedRoutes := rd.NamedRoutes ++ [(n, r1)] })
          (fun rd => rfl) rt2.router]
        exact hsame.symm
      have hget2 : (updateRouter s.routers (rootOf s rt1.router)
            (fun rd => { rd with NamedRoutes := rd.NamedRoutes ++ [(n, r1)] })).get?
            (rootOf s rt1.router) =
          some { rootRd with NamedRoutes := rootRd.NamedRoutes ++ [(n, r1)] } := by
        rw [get?_updateRouter, if_pos rfl, hroot]
        rfl
      have hfind2 : (rootRd.NamedRoutes ++ [(n, r1)]).find? (fun p => p.1 == n) =
          some (n, r1) := by
        rw [List.find?_append, hfnone]
        simp [List.find?]
      constructor
      · unfold MuxState.routeName
        dsimp only
        rw [h2]
        dsimp only
        rw [hroot2, hget2]
        dsimp only
        rw [hfind2]
        rfl
      · unfold namedLookup
        dsimp only
        rw [← hsame, hget2]
        dsimp only
        rw [hfind2]
        rfl

/-- C10 witness: in the concrete two-router tree, naming route 0 `foo`
succeeds, after which naming route 1 (owned by the sub-router) `foo`
fails with the duplicate-route-name error, and `foo` is registered to
route 0 in the root's table. -/
theorem C10_duplicate_name_witness :
    treeState.routeName 0 "foo".data = .ok namedState ∧
    namedState.routeName 1 "foo".data = .error (.dupRouteName "foo".data) ∧
    namedLookup namedState 0 "foo".data = some 0 := by
  have h := C10_duplicate_name treeState 0 1 "foo".data ⟨0⟩ ⟨1⟩ namedState
    rfl rfl rfl rfl
  exact ⟨rfl, h.1, h.2⟩

/-- `sprintfS` copies a percent-free run of the format verbatim, touching
no argument. -/
theorem sprintfS_append_of_not_mem (l rest : Str) (args : List Str)
    (h : '%' ∉ l) :
    sprintfS (l ++ rest) args = l ++ sprintfS rest args := by
  induction l with
  | nil => simp
  | cons c l2 ih =>
    have hc : ¬ c = '%' := fun heq => h (heq ▸ List.mem_cons_self c l2)
    have h2 : '%' ∉ l2 := fun hm => h (List.mem_cons_of_mem c hm)
    rw [List.cons_append]
    conv_lhs => rw [sprintfS.eq_def]
    dsimp only
    rw [if_neg hc, ih h2, List.cons_append]

/-- On a percent-free format, `sprintfS` is the identity. -/
theorem sprintfS_of_not_mem (l : Str) (args : List Str) (h : '%' ∉ l) :
    sprintfS l args = l := by
  have h2 := sprintfS_append_of_not_mem l [] args h
  rw [List.append_nil] at h2
  rw [h2, sprintfS, List.append_nil]

/-- The lookup loop of `reverseRoute` fails with the missing-variable
error naming the first variable, in template order, that is absent from
the values map. -/
theorem lookupVals_error (values : List (Str × Str)) (names : List Str) (i : Nat)
    (hi : i < names.length)
    (hmiss : lookupStr values (names.get ⟨i, hi⟩) = none)
    (hpre : ∀ j (hj : j < i),
      (lookupStr values (names.get ⟨j, Nat.lt_trans hj hi⟩)).isSome = true) :
    lookupVals values names = .error (.missingRouteVar (names.get ⟨i, hi⟩)) := by
  induction names generalizing i with
  | nil => exact absurd hi (by simp)
  | cons nm rest ih =>
    cases i with
    | zero =>
      have hmiss2 : lookupStr values nm = none := hmiss
      rw [lookupVals, hmiss2]
      rfl
    | succ i2 =>
      have hi2 : i2 < rest.length := Nat.lt_of_succ_lt_succ hi
      have hpre0 : (lookupStr values nm).isSome = true :=
        hpre 0 (Nat.succ_pos i2)
      obtain ⟨x, hx⟩ := Option.isSome_iff_exists.mp hpre0
      have hmiss2 : lookupStr values (rest.get ⟨i2, hi2⟩) = none := hmiss
      have hpre2 : ∀ j (hj : j < i2),
          (lookupStr values (rest.get ⟨j, Nat.lt_trans hj hi2⟩)).isSome = true :=
        fun j hj => hpre (j + 1) (Nat.succ_lt_succ hj)
      rw [lookupVals, hx, ih i2 hi2 hmiss2 hpre2]
      rfl

/-- C9.  `reverseRoute` fails with the missing-route-variable error
naming the first template variable, in template order, that the supplied
bindings omit. -/
theorem C9_missing_route_var (tpl : parsedTemplate) (values : List (Str × Str))
    (i : Nat) (hi : i < tpl.varsN.length)
    (hmiss : lookupStr values (tpl.varsN.get ⟨i, hi⟩) = none)
    (hpre : ∀ j (hj : j < i),
      (lookupStr values (tpl.varsN.get ⟨j, Nat.lt_trans hj hi⟩)).isSome = true) :
    reverseRoute tpl values = .error (.missingRouteVar (tpl.varsN.get ⟨i, hi⟩)) := by
  unfold reverseRoute
  rw [lookupVals_error values tpl.varsN i hi hmiss hpre]

/-- C9 witness: for the route `Path("/articles/{category}/{id:[0-9]+}")`,
building a URL with `id` omitted fails with the missing-route-variable
error naming `id`. -/
theorem C9_missing_route_var_witness :
    routePath newRouteData "/articles/{category}/{id:[0-9]+}".data =
      .ok (.mk none (some tplArt) []) ∧
    reverseRoute tplArt [("category".data, "technology".data)] =
      .error (.missingRouteVar "id".data) := by
  refine ⟨rfl, ?_⟩
  have hi : (1 : Nat) < tplArt.varsN.length := by decide
  have hpre : ∀ j (hj : j < 1),
      (lookupStr [("category".data, "technology".data)]
        (tplArt.varsN.get ⟨j, Nat.lt_trans hj hi⟩)).isSome = true := by
    intro j hj
    have hj0 : j = 0 := by omega
    subst hj0
    show (lookupStr [("category".data, "technology".data)]
      (tplArt.varsN.get ⟨0, Nat.succ_pos 1⟩)).isSome = true
    decide
  exact C9_missing_route_var tplArt [("category".data, "technology".data)] 1 hi
    rfl hpre

/-- C8 counterexample.  `/a%b` is a template with no variable
placeholders; its compiled regexp matches exactly the literal string, but
the reverse builder — `fmt.Sprintf` applied to the `Reverse` format
string, which contains the template's `%` verbatim — returns
`/a%!b(MISSING)`, not the literal template. -/
theorem C8_counterexample :
    parseTemplate "/a%b".data "[^/]+".data false (some []) = .ok tplPct ∧
    tplPct.varsN = [] ∧
    tplMatchesStr tplPct "/a%b".data = true ∧
    reverseRoute tplPct [] = .ok "/a%!b(MISSING)".data ∧
    "/a%!b(MISSING)".data ≠ "/a%b".data :=
  ⟨rfl, rfl, rfl, rfl, by decide⟩

/-- C8 (amended).  For every template with no variable placeholders *and
no percent character*, the compiled regexp matches exactly the literal
template string (when not compiled as a prefix), and the reverse builder
with empty bindings returns exactly that literal string. -/
theorem C8_literal_template_amended (template dflt : Str) (isPre : Bool)
    (names : Option (List Str)) (tpl : parsedTemplate)
    (hfav : findAllVariableIndex template = .ok [])
    (hok : parseTemplate template dflt isPre names = .ok tpl)
    (hnp : '%' ∉ template) :
    tpl.lits = [template] ∧ tpl.varsN = [] ∧
    (isPre = false → ∀ s, tplMatchesStr tpl s = true ↔ s = template) ∧
    reverseRoute tpl [] = .ok template := by
  unfold parseTemplate at hok
  rw [hfav] at hok
  dsimp only at hok
  rw [parseLoop] at hok
  dsimp only [List.getLast?] at hok
  rw [List.drop_zero, List.nil_append] at hok
  have htpl : tpl = { lits := [template], pats := [], isPre := isPre, varsN := [] } := by
    cases hok
    rfl
  subst htpl
  refine ⟨rfl, rfl, ?_, ?_⟩
  · intro hpre s
    rw [tplMatchesStr]
    dsimp only
    rw [tplMatchesB, hpre, if_neg (by simp)]
    exact beq_iff_eq
  · rw [reverseRoute]
    dsimp only
    rw [lookupVals]
    dsimp only [parsedTemplate.reverseFmt, reverseFromLits]
    rw [sprintfS_of_not_mem template [] hnp]
    have hmatch : tplMatchesStr
        { lits := [template], pats := [], isPre := isPre, varsN := [] } template = true := by
      rw [tplMatchesStr]
      dsimp only
      rw [tplMatchesB]
      cases isPre with
      | false =>
        rw [if_neg (by simp)]
        exact beq_self_eq_true template
      | true =>
        rw [if_pos rfl]
        exact List.isPrefixOf_iff_prefix.mpr (List.prefix_refl template)
    rw [hmatch]
    rfl

/-- C8 witness: the variable-free template `/articles` compiles to a
regexp matching exactly `/articles`, and the reverse builder with empty
bindings returns exactly `/articles`. -/
theorem C8_literal_template_amended_witness :
    (∀ s, tplMatchesStr tplArtLit s = true ↔ s = "/articles".data) ∧
    reverseRoute tplArtLit [] = .ok "/articles".data := by
  have h := C8_literal_template_amended "/articles".data "[^/]+".data false
    (some []) tplArtLit rfl rfl (by decide)
  exact ⟨h.2.2.1 rfl, h.2.2.2⟩

/-- A colon-free segment has no split point. -/
theorem splitFirstColon_eq_none (seg : Str) (h : ':' ∉ seg) :
    splitFirstColon seg = none := by
  induction seg with
  | nil => rfl
  | cons c rest ih =>
    have hc : ¬ c = ':' := fun heq => h (heq ▸ List.mem_cons_self c rest)
    have h2 : ':' ∉ rest := fun hm => h (List.mem_cons_of_mem c hm)
    rw [splitFirstColon, if_neg hc, ih h2]
    rfl

/-- A variable segment without a colon gets the default pattern. -/
theorem parseVar_snd_of_no_colon (seg dflt : Str) (h : ':' ∉ seg) :
    (parseVar seg dflt).2 = dflt := by
  rw [parseVar, splitFirstColon_eq_none seg h]

/-- Structure of a successful `parseLoop` run: one literal run, one
pattern and one name per index pair; the pattern of each variable is
what `parseVar` extracts from its segment (the part after the first
colon, or the default); every literal-run character comes from the
template. -/
theorem parseLoop_spec (template dflt : Str) (pairs : List (Nat × Nat))
    (endPos : Nat) (names : Option (List Str)) (ls ps vs : List Str)
    (hok : parseLoop template dflt pairs endPos names = .ok (ls, ps, vs)) :
    ls.length = ps.length ∧ vs.length = ps.length ∧
    ps = pairs.map
      (fun pr => (parseVar (substr template (pr.1 + 1) (pr.2 - 1)) dflt).2) ∧
    ∀ l ∈ ls, ∀ c ∈ l, c ∈ template := by
  induction pairs generalizing endPos names ls ps vs with
  | nil =>
    rw [parseLoop.eq_def] at hok
    dsimp only at hok
    cases hok
    exact ⟨rfl, rfl, rfl, by simp⟩
  | cons pr rest ih =>
    obtain ⟨a, b⟩ := pr
    rw [parseLoop.eq_def] at hok
    dsimp only at hok
    by_cases hbad : (parseVar (substr template (a + 1) (b - 1)) dflt).1 = [] ∨
        (parseVar (substr template (a + 1) (b - 1)) dflt).2 = []
    · rw [if_pos hbad] at hok
      exact absurd hok (by simp)
    · rw [if_neg hbad] at hok
      cases names with
      | some ns =>
        dsimp only at hok
        by_cases hdup :
            ns.contains (parseVar (substr template (a + 1) (b - 1)) dflt).1 = true
        · rw [if_pos hdup] at hok
          exact absurd hok (by simp)
        · rw [if_neg hdup] at hok
          cases hrec : parseLoop template dflt rest b
              (some (ns ++ [(parseVar (substr template (a + 1) (b - 1)) dflt).1])) with
          | error e =>
            rw [hrec] at hok
            exact absurd hok (by simp)
          | ok triple =>
            obtain ⟨ls2, ps2, vs2⟩ := triple
            rw [hrec] at hok
            dsimp only at hok
            cases hok
            obtain ⟨h1, h2, h3, h4⟩ := ih b _ ls2 ps2 vs2 hrec
            refine ⟨by simp [h1], by simp [h2], by simp [h3], ?_⟩
            intro l hl c hc
            rcases List.mem_cons.mp hl with rfl | hl2
            · exact List.take_subset a template (List.drop_subset endPos _ hc)
            · exact h4 l hl2 c hc
      | none =>
        dsimp only at hok
        cases hrec : parseLoop template dflt rest b none with
        | error e =>
          rw [hrec] at hok
          exact absurd hok (by simp)
        | ok triple =>
          obtain ⟨ls2, ps2, vs2⟩ := triple
          rw [hrec] at hok
          dsimp only at hok
          cases hok
          obtain ⟨h1, h2, h3, h4⟩ := ih b none ls2 ps2 vs2 hrec
          refine ⟨by simp [h1], by simp [h2], by simp [h3], ?_⟩
          intro l hl c hc
          rcases List.mem_cons.mp hl with rfl | hl2
          · exact List.take_subset a template (List.drop_subset endPos _ hc)
          · exact h4 l hl2 c hc

/-- Structure of a successfully compiled template, in terms of the
variable index pairs of the template text. -/
theorem parseTemplate_spec (template dflt : Str) (isPre : Bool)
    (names : Option (List Str)) (tpl : parsedTemplate) (pairs : List (Nat × Nat))
    (hfav : findAllVariableIndex template = .ok pairs)
    (hok : parseTemplate template dflt isPre names = .ok tpl) :
    tpl.lits.length = tpl.pats.length + 1 ∧
    tpl.varsN.length = tpl.pats.length ∧
    tpl.isPre = isPre ∧
    tpl.pats = pairs.map
      (fun pr => (parseVar (substr template (pr.1 + 1) (pr.2 - 1)) dflt).2) ∧
    ∀ l ∈ tpl.lits, ∀ c ∈ l, c ∈ template := by
  unfold parseTemplate at hok
  rw [hfav] at hok
  dsimp only at hok
  cases hloop : parseLoop template dflt pairs 0 names with
  | error e =>
    rw [hloop] at hok
    exact absurd hok (by simp)
  | ok triple =>
    obtain ⟨ls, ps, vs⟩ := triple
    rw [hloop] at hok
    dsimp only at hok
    obtain ⟨h1, h2, h3, h4⟩ := parseLoop_spec template dflt pairs 0 names ls ps vs hloop
    cases hok
    refine ⟨by simp [h1], h2, rfl, h3, ?_⟩
    intro l hl c hc
    rcases List.mem_append.mp hl with hl1 | hl2
    · exact h4 l hl1 c hc
    · rw [List.mem_singleton.mp hl2] at hc
      exact List.drop_subset _ template hc

/-- C7.  A variable written `{name}` with no explicit pattern receives
the `defaultPattern` argument of `parseTemplate` — `[^.]+` for host
templates, `[^/]+` for path and path-prefix templates, as witnessed by
the `Host`/`Path`/`PathPrefix` compilations below; consequently the host
template `{sub}.domain.com` matches `a.domain.com` binding `sub` to `a`
and does not match `a.b.domain.com`. -/
theorem C7_default_patterns :
    (∀ (template dflt : Str) (isPre : Bool) (names : Option (List Str))
        (tpl : parsedTemplate) (pairs : List (Nat × Nat)) (i : Nat)
        (pr : Nat × Nat),
      parseTemplate template dflt isPre names = .ok tpl →
      findAllVariableIndex template = .ok pairs →
      pairs[i]? = some pr →
      ':' ∉ substr template (pr.1 + 1) (pr.2 - 1) →
      tpl.pats[i]? = some dflt) ∧
    routeHost newRouteData "{sub}.domain.com".data = .ok (.mk (some tplSub) none []) ∧
    routePath newRouteData "/{x}".data = .ok (.mk none (some tplXPath) []) ∧
    routePathPre newRouteData "/{x}".data = .ok (.mk none (some tplXPre) []) ∧
    routeMatchGo (.mk (some tplSub) none []) reqSubA none =
      (some [("sub".data, ['a'])], some (.mk (some tplSub) none []), true) ∧
    routeMatchGo (.mk (some tplSub) none []) reqSubAB none = (none, none, false) := by
  refine ⟨?_, rfl, rfl, rfl, rfl, rfl⟩
  intro template dflt isPre names tpl pairs i pr hok hfav hget hnc
  obtain ⟨-, -, -, hpats, -⟩ :=
    parseTemplate_spec template dflt isPre names tpl pairs hfav hok
  rw [hpats, List.getElem?_map, hget]
  dsimp only [Option.map]
  rw [parseVar_snd_of_no_colon _ dflt hnc]

/-- C7 witness: in the compiled host template `{sub}.domain.com`, the
pattern of the (pattern-less) variable `sub` is the host default
`[^.]+`. -/
theorem C7_default_patterns_witness :
    tplSub.pats[0]? = some "[^.]+".data :=
  C7_default_patterns.1 "{sub}.domain.com".data "[^.]+".data false (some [])
    tplSub [(0, 5)] 0 (0, 5) rfl rfl rfl (by decide)

/-- The matcher loop over a concatenation: run the first block; if it
passes with no resolved route, continue with the second block from the
state the first block left behind; a failure or a resolved route in the
first block ends the loop there. -/
theorem matchersGo_append (ms1 ms2 : List Matcher) (req : RequestT)
    (st : Option RouteVars) :
    matchersGo (ms1 ++ ms2) req st =
      match matchersGo ms1 req st with
      | (st1, none, true) => matchersGo ms2 req st1
      | other => other := by
  induction ms1 generalizing st with
  | nil => rfl
  | cons m ms1t ih =>
    rw [List.cons_append]
    rw [matchersGo.eq_def]
    conv_rhs => rw [matchersGo.eq_def]
    dsimp only
    rcases hm : matcherGo m req st with ⟨st2, rv2, ok2⟩
    cases ok2 with
    | false =>
      cases rv2 with
      | some r2 => rfl
      | none => rfl
    | true =>
      cases rv2 with
      | some r2 => rfl
      | none => exact ih st2

/-- C5.  `Route.Match` evaluates host template, then path template, then
the matchers in registration order, and short-circuits: a failing host
or path regexp fails the route with the store untouched and no matcher
evaluated (the result does not depend on the matcher list); after a block
of passing matchers, a failing matcher fails the route immediately — the
result does not depend on the matchers after it; and a matcher resolving
a more specific route ends the scan with that route, the matchers after
it unevaluated. -/
theorem C5_route_match_short_circuit (req : RequestT)
    (st st1 st2 : Option RouteVars) (hostT pathT : Option parsedTemplate)
    (ms1 ms2 : List Matcher) (m : Matcher) (hc pc : Option (List Str))
    (rv : Option RouteData) (r2 : RouteData) :
    (∀ t, hostT = some t → extractStr t req.urlHost = none →
      ∀ ms, routeMatchGo (.mk hostT pathT ms) req st = (st, none, false)) ∧
    (tplStep hostT req.urlHost = some hc →
      ∀ t, pathT = some t → extractStr t req.urlPath = none →
      ∀ ms, routeMatchGo (.mk hostT pathT ms) req st = (st, none, false)) ∧
    (tplStep hostT req.urlHost = some hc →
      tplStep pathT req.urlPath = some pc →
      matchersGo ms1 req st = (st1, none, true) →
      matcherGo m req st1 = (st2, rv, false) →
      routeMatchGo (.mk hostT pathT (ms1 ++ m :: ms2)) req st = (st2, none, false)) ∧
    (tplStep hostT req.urlHost = some hc →
      tplStep pathT req.urlPath = some pc →
      matchersGo ms1 req st = (st1, none, true) →
      matcherGo m req st1 = (st2, some r2, true) →
      routeMatchGo (.mk hostT pathT (ms1 ++ m :: ms2)) req st =
        (some (buildVars hostT hc pathT pc), some r2, true)) := by
  refine ⟨?_, ?_, ?_, ?_⟩
  · intro t ht hext ms
    subst ht
    rw [routeMatchGo.eq_def]
    dsimp only
    rw [tplStep, hext]
  · intro hhost t ht hext ms
    subst ht
    rw [routeMatchGo.eq_def]
    dsimp only
    rw [hhost]
    dsimp only
    rw [tplStep, hext]
  · intro hhost hpath hms1 hm
    rw [routeMatchGo.eq_def]
    dsimp only
    rw [hhost]
    dsimp only
    rw [hpath]
    dsimp only
    rw [matchersGo_append, hms1]
    dsimp only
    rw [matchersGo.eq_def]
    dsimp only
    rw [hm]
    cases rv with
    | some x => rfl
    | none => rfl
  · intro hhost hpath hms1 hm
    rw [routeMatchGo.eq_def]
    dsimp only
    rw [hhost]
    dsimp only
    rw [hpath]
    dsimp only
    rw [matchersGo_append, hms1]
    dsimp only
    rw [matchersGo.eq_def]
    dsimp only
    rw [hm]

/-- C5 witness: on a route `Host("www.domain.com")` whose matchers are a
passing method matcher, then a failing scheme matcher, then a custom
matcher, the route fails with the store untouched — the custom matcher
after the failing one plays no part; and on the sub-routing route the
sub-router matcher resolves the inner route and ends the scan before a
trailing always-false custom matcher. -/
theorem C5_route_match_short_circuit_witness :
    routeMatchGo
        (.mk (some tplWWW) none
          ([.methodm ["GET".data]] ++ .scheme ["https".data] ::
            [.custom (fun _ => false)]))
        reqProducts none = (none, none, false) ∧
    routeMatchGo
        (.mk (some tplWWW) none
          ([.methodm ["GET".data]] ++ .subrouter [innerRouteW] ::
            [.custom (fun _ => false)]))
        reqW none =
      (some (buildVars (some tplWWW) (some []) none none), some innerRouteW,
        true) := by
  constructor
  · exact (C5_route_match_short_circuit reqProducts none none none
      (some tplWWW) none [.methodm ["GET".data]] [.custom (fun _ => false)]
      (.scheme ["https".data]) (some []) none none routeB).2.2.1
      rfl rfl rfl rfl
  · exact (C5_route_match_short_circuit reqW none none
      ((routeMatchGo innerRouteW reqW none).1) (some tplWWW) none
      [.methodm ["GET".data]] [.custom (fun _ => false)]
      (.subrouter [innerRouteW]) (some []) none none innerRouteW).2.2.2
      rfl rfl rfl rfl

/-- C6.  Whenever `Route.Match` succeeds, the variable map finally stored
for the request is exactly the one built from that route's own host and
path templates — the final `ctx.Set` overwrites whatever the matchers
(in particular a sub-router's inner `Route.Match`) had stored. -/
theorem C6_outer_vars_overwrite (r : RouteData) (req : RequestT)
    (st st2 : Option RouteVars) (rv : Option RouteData)
    (hok : routeMatchGo r req st = (st2, rv, true)) :
    ∃ hc pc, tplStep r.hostTemplate req.urlHost = some hc ∧
      tplStep r.pathTemplate req.urlPath = some pc ∧
      st2 = some (buildVars r.hostTemplate hc r.pathTemplate pc) := by
  obtain ⟨hostT, pathT, ms⟩ := r
  rw [routeMatchGo.eq_def] at hok
  dsimp only at hok
  cases hh : tplStep hostT req.urlHost with
  | none =>
    rw [hh] at hok
    dsimp only at hok
    exact absurd (congrArg (fun p => p.2.2) hok) (by simp)
  | some hc =>
    rw [hh] at hok
    dsimp only at hok
    cases hp : tplStep pathT req.urlPath with
    | none =>
      rw [hp] at hok
      dsimp only at hok
      exact absurd (congrArg (fun p => p.2.2) hok) (by simp)
    | some pc =>
      rw [hp] at hok
      dsimp only at hok
      rcases hms : matchersGo ms req st with ⟨st3, rv3, ok3⟩
      rw [hms] at hok
      cases ok3 with
      | false =>
        dsimp only at hok
        exact absurd (congrArg (fun p => p.2.2) hok) (by simp)
      | true =>
        dsimp only at hok
        refine ⟨hc, pc, hh, hp, ?_⟩
        exact (congrArg (fun p => p.1) hok).symm

/-- C6 witness: the sub-routing fixture.  The inner route alone stores
`key = 42`; the outer route's match resolves the inner route but finally
stores the empty map built from its own (variable-free) host template,
overwriting the inner route's variables. -/
theorem C6_outer_vars_overwrite_witness :
    routeMatchGo outerRouteW reqW none = (some [], some innerRouteW, true) ∧
    routeMatchGo innerRouteW reqW none =
      (some [("key".data, "42".data)], some innerRouteW, true) ∧
    (∃ hc pc, tplStep outerRouteW.hostTemplate reqW.urlHost = some hc ∧
      tplStep outerRouteW.pathTemplate reqW.urlPath = some pc ∧
      (some [] : Option RouteVars) =
        some (buildVars outerRouteW.hostTemplate hc outerRouteW.pathTemplate pc)) := by
  refine ⟨rfl, rfl, ?_⟩
  exact C6_outer_vars_overwrite outerRouteW reqW none (some [])
    (some innerRouteW) rfl

/-! Matching never reads the per-request store: the matched route and the
success flag (the second and third components of every matching function)
do not depend on the incoming store.  Proved by mutual induction over the
route/matcher structure. -/

mutual
theorem routeMatchGo_snd_indep (r : RouteData) (req : RequestT)
    (s1 s2 : Option RouteVars) :
    (routeMatchGo r req s1).2 = (routeMatchGo r req s2).2 := by
  match r with
  | .mk hostT pathT ms =>
    rw [routeMatchGo.eq_def]
    conv_rhs => rw [routeMatchGo.eq_def]
    dsimp only
    cases hh : tplStep hostT req.urlHost with
    | none => rfl
    | some hc =>
      dsimp only
      cases hp : tplStep pathT req.urlPath with
      | none => rfl
      | some pc =>
        dsimp only
        rcases h1 : matchersGo ms req s1 with ⟨st1, rv1, ok1⟩
        rcases h2 : matchersGo ms req s2 with ⟨st2, rv2, ok2⟩
        have hsnd : (rv1, ok1) = (rv2, ok2) := by
          have := matchersGo_snd_indep ms req s1 s2
          rw [h1, h2] at this
          exact this
        cases hsnd
        cases ok1 with
        | false => rfl
        | true => rfl

theorem matchersGo_snd_indep (ms : List Matcher) (req : RequestT)
    (s1 s2 : Option RouteVars) :
    (matchersGo ms req s1).2 = (matchersGo ms req s2).2 := by
  match ms with
  | [] => rfl
  | m :: rest =>
    rw [matchersGo.eq_def]
    conv_rhs => rw [matchersGo.eq_def]
    dsimp only
    rcases h1 : matcherGo m req s1 with ⟨st1, rv1, ok1⟩
    rcases h2 : matcherGo m req s2 with ⟨st2, rv2, ok2⟩
    have hsnd : (rv1, ok1) = (rv2, ok2) := by
      have := matcherGo_snd_indep m req s1 s2
      rw [h1, h2] at this
      exact this
    cases hsnd
    cases ok1 with
    | false =>
      cases rv1 with
      | some r2 => rfl
      | none => rfl
    | true =>
      cases rv1 with
      | some r2 => rfl
      | none => exact matchersGo_snd_indep rest req st1 st2

theorem matcherGo_snd_indep (m : Matcher) (req : RequestT)
    (s1 s2 : Option RouteVars) :
    (matcherGo m req s1).2 = (matcherGo m req s2).2 := by
  match m with
  | .custom f => rfl
  | .header hs => rfl
  | .methodm mths => rfl
  | .query qs => rfl
  | .scheme ss => rfl
  | .subrouter routes => exact routerMatchGo_snd_indep routes req s1 s2

theorem routerMatchGo_snd_indep (routes : List RouteData) (req : RequestT)
    (s1 s2 : Option RouteVars) :
    (routerMatchGo routes req s1).2 = (routerMatchGo routes req s2).2 := by
  match routes with
  | [] => rfl
  | r :: rest =>
    rw [routerMatchGo.eq_def]
    conv_rhs => rw [routerMatchGo.eq_def]
    dsimp only
    rcases h1 : routeMatchGo r req s1 with ⟨st1, rv1, ok1⟩
    rcases h2 : routeMatchGo r req s2 with ⟨st2, rv2, ok2⟩
    have hsnd : (rv1, ok1) = (rv2, ok2) := by
      have := routeMatchGo_snd_indep r req s1 s2
      rw [h1, h2] at this
      exact this
    cases hsnd
    cases ok1 with
    | true => rfl
    | false => exact routerMatchGo_snd_indep rest req st1 st2
end

/-- C4.  `Router.Match` tries the routes in registration order: if route
`i` matches and every earlier route fails, the router's result (matched
route and flag) is route `i`'s result — in particular, of two matching
routes the earlier-registered one wins; and if every route fails, the
router returns no route and `false`. -/
theorem C4_router_first_match (routes : List RouteData) (req : RequestT)
    (st : Option RouteVars) :
    (∀ i (hi : i < routes.length),
      (routeMatchGo (routes.get ⟨i, hi⟩) req st).2.2 = true →
      (∀ j (hj : j < i),
        (routeMatchGo (routes.get ⟨j, Nat.lt_trans hj hi⟩) req st).2.2 = false) →
      (routerMatchGo routes req st).2 =
        (routeMatchGo (routes.get ⟨i, hi⟩) req st).2) ∧
    ((∀ j (hj : j < routes.length),
        (routeMatchGo (routes.get ⟨j, hj⟩) req st).2.2 = false) →
      (routerMatchGo routes req st).2 = (none, false)) := by
  induction routes generalizing st with
  | nil =>
    refine ⟨?_, ?_⟩
    · intro i hi
      exact absurd hi (by simp)
    · intro _
      rfl
  | cons r rest ih =>
    refine ⟨?_, ?_⟩
    · intro i hi hsucc hfail
      cases i with
      | zero =>
        have hget : (r :: rest).get ⟨0, hi⟩ = r := rfl
        rw [hget] at hsucc ⊢
        rcases hr : routeMatchGo r req st with ⟨st2, rv2, ok2⟩
        have hok2 : ok2 = true := by
          rw [hr] at hsucc
          exact hsucc
        subst hok2
        rw [routerMatchGo.eq_def]
        dsimp only
        rw [hr]
      | succ i2 =>
        have hi2 : i2 < rest.length := Nat.lt_of_succ_lt_succ hi
        have hget : (r :: rest).get ⟨i2 + 1, hi⟩ = rest.get ⟨i2, hi2⟩ := rfl
        rw [hget] at hsucc ⊢
        rcases hr : routeMatchGo r req st with ⟨st2, rv2, ok2⟩
        have h0 : (routeMatchGo r req st).2.2 = false := hfail 0 (Nat.succ_pos i2)
        rw [hr] at h0
        subst h0
        rw [routerMatchGo.eq_def]
        dsimp only
        rw [hr]
        dsimp only
        rw [routerMatchGo_snd_indep rest req st2 st]
        exact (ih st).1 i2 hi2 hsucc
          (fun j hj => hfail (j + 1) (Nat.succ_lt_succ hj))
    · intro hall
      rcases hr : routeMatchGo r req st with ⟨st2, rv2, ok2⟩
      have h0 : (routeMatchGo r req st).2.2 = false := hall 0 (Nat.succ_pos _)
      rw [hr] at h0
      subst h0
      rw [routerMatchGo.eq_def]
      dsimp only
      rw [hr]
      dsimp only
      rw [routerMatchGo_snd_indep rest req st2 st]
      exact (ih st).2 (fun j hj => hall (j + 1) (Nat.succ_lt_succ hj))

/-- C4 witness: for the request to `/products/`, both `routeA` (path
`/products/`) and the unconstrained `routeB` match, and the router
registered as `[routeA, routeB]` resolves to `routeA`; for a request no
route matches, the router returns no route and `false`. -/
theorem C4_router_first_match_witness :
    (routeMatchGo routeA reqProducts none).2.2 = true ∧
    (routeMatchGo routeB reqProducts none).2.2 = true ∧
    (routerMatchGo [routeA, routeB] reqProducts none).2 = (some routeA, true) ∧
    (routerMatchGo [routeA] reqW none).2 = (none, false) := by
  refine ⟨rfl, rfl, ?_, ?_⟩
  · have h := (C4_router_first_match [routeA, routeB] reqProducts none).1 0
      (Nat.succ_pos 1) rfl (fun j hj => absurd hj (Nat.not_lt_zero j))
    rw [h]
    rfl
  · have h := (C4_router_first_match [routeA] reqW none).2 ?_
    · rw [h]
    · intro j hj
      have hj0 : j = 0 := by
        simp only [List.length_cons, List.length_nil] at hj
        omega
      subst hj0
      rfl

/-- Inversion for `findSome?`: a hit comes from some element. -/
theorem exists_of_findSome?_eq_some {α β : Type} {f : α → Option β}
    {l : List α} {b : β} (h : l.findSome? f = some b) :
    ∃ a ∈ l, f a = some b := by
  induction l with
  | nil => simp [List.findSome?_nil] at h
  | cons x xs ih =>
    rw [List.findSome?_cons] at h
    cases hf : f x with
    | some v =>
      rw [hf] at h
      dsimp only at h
      cases h
      exact ⟨x, List.mem_cons_self x xs, hf⟩
    | none =>
      rw [hf] at h
      obtain ⟨a, ha, hfa⟩ := ih h
      exact ⟨a, List.mem_cons_of_mem x ha, hfa⟩

/-- Completeness of the regexp-match search: the interleaving of the
literal runs with pattern-conforming group texts matches the compiled
template regexp. -/
theorem tplMatchesB_complete (pre : Bool) :
    ∀ (ps ls vals : List Str),
    ls.length = ps.length + 1 → vals.length = ps.length →
    (∀ pv ∈ ps.zip vals, patMatchB pv.1 pv.2 = true) →
    tplMatchesB ls ps pre (interleave ls vals) = true := by
  intro ps
  induction ps with
  | nil =>
    intro ls vals hls hvals _
    match ls, hls with
    | [l], _ =>
      have hv : vals = [] := List.length_eq_zero.mp hvals
      subst hv
      rw [interleave]
      rw [tplMatchesB.eq_def]
      dsimp only
      cases pre with
      | false => exact beq_self_eq_true l
      | true => exact List.isPrefixOf_iff_prefix.mpr (List.prefix_refl l)
  | cons p ps2 ih =>
    intro ls vals hls hvals hall
    match ls, hls, vals, hvals with
    | l :: l2 :: ls3, hls2, v :: vs, hvals2 =>
      rw [interleave]
      rw [tplMatchesB.eq_def]
      dsimp only
      rw [Bool.and_eq_true]
      constructor
      · exact List.isPrefixOf_iff_prefix.mpr (List.prefix_append l _)
      · rw [List.drop_left]
        rw [List.any_eq_true]
        refine ⟨v.length, ?_, ?_⟩
        · rw [List.mem_range]
          rw [List.length_append]
          omega
        · rw [Bool.and_eq_true]
          constructor
          · rw [List.take_left]
            exact hall (p, v) (by rw [List.zip_cons_cons]; exact List.mem_cons_self _ _)
          · rw [List.drop_left]
            exact ih (l2 :: ls3) vs (by simpa using hls2) (by simpa using hvals2)
              (fun pv hpv => hall pv
                (by rw [List.zip_cons_cons]; exact List.mem_cons_of_mem _ hpv))

/-- Soundness of the leftmost-first capture extraction: the extracted
groups decompose the subject into the literal runs interleaved with
pattern-conforming group texts (followed by a free tail only for prefix
templates). -/
theorem extractCaptures_sound (pre : Bool) :
    ∀ (ps ls : List Str) (s : Str) (caps : List Str),
    extractCaptures ls ps pre s = some caps →
    caps.length = ps.length ∧
    (∃ tail, s = interleave ls caps ++ tail ∧ (pre = false → tail = [])) ∧
    ∀ pv ∈ ps.zip caps, patMatchB pv.1 pv.2 = true := by
  intro ps
  induction ps with
  | nil =>
    intro ls s caps hex
    match ls with
    | [] =>
      rw [extractCaptures.eq_def] at hex
      exact absurd hex (by simp)
    | [l] =>
      rw [extractCaptures.eq_def] at hex
      dsimp only at hex
      by_cases hcond : (if pre then l.isPrefixOf s else s == l) = true
      · rw [if_pos hcond] at hex
        cases hex
        refine ⟨rfl, ?_, by simp⟩
        cases pre with
        | false =>
          rw [if_neg (by simp)] at hcond
          refine ⟨[], ?_, fun _ => rfl⟩
          rw [interleave, List.append_nil]
          exact beq_iff_eq.mp hcond
        | true =>
          rw [if_pos rfl] at hcond
          obtain ⟨t, ht⟩ := List.isPrefixOf_iff_prefix.mp hcond
          refine ⟨t, ?_, fun hpre => absurd hpre (by simp)⟩
          rw [interleave]
          exact ht.symm
      · rw [if_neg hcond] at hex
        exact absurd hex (by simp)
    | l :: l2 :: ls3 =>
      rw [extractCaptures.eq_def] at hex
      exact absurd hex (by simp)
  | cons p ps2 ih =>
    intro ls s caps hex
    match ls with
    | [] =>
      rw [extractCaptures.eq_def] at hex
      exact absurd hex (by simp)
    | [l] =>
      rw [extractCaptures.eq_def] at hex
      exact absurd hex (by simp)
    | l :: l2 :: ls3 =>
      rw [extractCaptures.eq_def] at hex
      dsimp only at hex
      by_cases hpref : l.isPrefixOf s = true
      · rw [if_pos hpref] at hex
        obtain ⟨t, ht⟩ := List.isPrefixOf_iff_prefix.mp hpref
        obtain ⟨k, -, hfk⟩ := exists_of_findSome?_eq_some hex
        by_cases hpm : patMatchB p ((s.drop l.length).take k) = true
        · rw [if_pos hpm] at hfk
          obtain ⟨caps2, hex2, hcaps⟩ := Option.map_eq_some'.mp hfk
          obtain ⟨hlen, ⟨tail, hdecomp, htail⟩, hallz⟩ :=
            ih (l2 :: ls3) ((s.drop l.length).drop k) caps2 hex2
          subst hcaps
          have hdrop : s.drop l.length = t := by
            rw [← ht, List.drop_left]
          refine ⟨by simp [hlen], ⟨tail, ?_, htail⟩, ?_⟩
          · rw [interleave]
            rw [← ht]
            rw [List.drop_left]
            rw [hdrop] at hdecomp
            conv_lhs => rw [← List.take_append_drop k t]
            rw [hdecomp]
            simp [List.append_assoc]
          · intro pv hpv
            rw [List.zip_cons_cons] at hpv
            rcases List.mem_cons.mp hpv with rfl | hpv2
            · exact hpm
            · exact hallz pv hpv2
        · rw [if_neg hpm] at hfk
          exact absurd hfk (by simp)
      · rw [if_neg hpref] at hex
        exact absurd hex (by simp)

/-- The lookup loop succeeds when every template variable is bound,
returning the bound values in template order. -/
theorem lookupVals_ok (values : List (Str × Str)) (names : List Str)
    (h : ∀ n ∈ names, (lookupStr values n).isSome = true) :
    lookupVals values names =
      .ok (names.map (fun n => (lookupStr values n).getD [])) := by
  induction names with
  | nil => rfl
  | cons nm rest ih =>
    obtain ⟨x, hx⟩ := Option.isSome_iff_exists.mp (h nm (List.mem_cons_self nm rest))
    rw [lookupVals, hx, ih (fun n hn => h n (List.mem_cons_of_mem nm hn))]
    dsimp only
    rw [List.map_cons]
    simp [hx]

/-- `sprintfS` on the `Reverse` format string of percent-free literal
runs is exactly the interleaving of the runs with the arguments. -/
theorem sprintfS_reverseFromLits :
    ∀ (ls vals : List Str), (∀ l ∈ ls, '%' ∉ l) →
    vals.length + 1 = ls.length →
    sprintfS (reverseFromLits ls) vals = interleave ls vals := by
  intro ls
  induction ls with
  | nil =>
    intro vals _ hlen
    simp at hlen
  | cons l ls2 ih =>
    intro vals hnp hlen
    cases ls2 with
    | nil =>
      have hv : vals = [] := by
        rw [List.length_cons, List.length_nil] at hlen
        exact List.length_eq_zero.mp (by omega)
      subst hv
      rw [reverseFromLits]
      rw [sprintfS_of_not_mem l [] (hnp l (List.mem_cons_self l []))]
      rfl
    | cons l2 ls3 =>
      cases vals with
      | nil => simp at hlen
      | cons v vs =>
        rw [reverseFromLits]
        rw [sprintfS_append_of_not_mem l _ _ (hnp l (List.mem_cons_self l _))]
        have hstep : sprintfS ('%' :: 's' :: reverseFromLits (l2 :: ls3)) (v :: vs) =
            v ++ sprintfS (reverseFromLits (l2 :: ls3)) vs := by
          rw [sprintfS.eq_def]
          dsimp only
          rw [if_pos rfl]
          rw [if_neg (by decide), if_pos (Or.inl rfl)]
        rw [hstep]
        rw [ih vs (fun x hx => hnp x (List.mem_cons_of_mem l hx)) (by simpa using hlen)]
        rw [interleave]

/-- C1 counterexample.  For the template `/{x}{y}` (two adjacent default
variables) and the bindings `x = ab, y = cd` — both values matching their
patterns — the reverse builder produces `/abcd`, which matches the
compiled regexp; but the leftmost-first greedy capture extraction returns
`abc` and `d`, so zipping the captures with the variable-name list does
not reproduce the original bindings. -/
theorem C1_counterexample :
    parseTemplate "/{x}{y}".data "[^/]+".data false (some []) = .ok tplXY ∧
    patMatchB "[^/]+".data "ab".data = true ∧
    patMatchB "[^/]+".data "cd".data = true ∧
    reverseRoute tplXY xyBindings = .ok "/abcd".data ∧
    tplMatchesStr tplXY "/abcd".data = true ∧
    extractStr tplXY "/abcd".data = some ["abc".data, ['d']] ∧
    tplXY.varsN.zip ["abc".data, ['d']] ≠ xyBindings :=
  ⟨rfl, rfl, rfl, rfl, rfl, rfl, by decide⟩

/-- C1 (amended).  For every compiled template whose text contains no
percent character and every bindings map supplying a pattern-matching
value for each template variable, the reverse builder succeeds and
returns the interleaving of the template's literal runs with the bound
values, that string matches the template's compiled regexp (the bound
values themselves form a valid decomposition of the match), and the
capture groups extracted by the regexp engine — which need not equal the
original bindings — are themselves a pattern-conforming decomposition of
the same string. -/
theorem C1_round_trip_amended (template dflt : Str) (isPre : Bool)
    (names : Option (List Str)) (tpl : parsedTemplate)
    (pairs : List (Nat × Nat)) (values : List (Str × Str))
    (hfav : findAllVariableIndex template = .ok pairs)
    (hok : parseTemplate template dflt isPre names = .ok tpl)
    (hnp : '%' ∉ template)
    (hvals : ∀ nv ∈ tpl.varsN.zip tpl.varsR, ∃ v,
      lookupStr values nv.1 = some v ∧ patMatchB nv.2 v = true) :
    reverseRoute tpl values = .ok (interleave tpl.lits (bindingsVals values tpl)) ∧
    tplMatchesStr tpl (interleave tpl.lits (bindingsVals values tpl)) = true ∧
    (∀ caps,
      extractStr tpl (interleave tpl.lits (bindingsVals values tpl)) = some caps →
      caps.length = tpl.varsN.length ∧
      (∃ tail, interleave tpl.lits (bindingsVals values tpl) =
        interleave tpl.lits caps ++ tail ∧ (tpl.isPre = false → tail = [])) ∧
      ∀ pv ∈ tpl.varsR.zip caps, patMatchB pv.1 pv.2 = true) := by
  obtain ⟨h1, h2, -, -, hsubset⟩ :=
    parseTemplate_spec template dflt isPre names tpl pairs hfav hok
  have hnpl : ∀ l ∈ tpl.lits, '%' ∉ l :=
    fun l hl hm => hnp (hsubset l hl '%' hm)
  have hvarsR_len : tpl.varsR.length = tpl.pats.length := rfl
  have hziplen : (tpl.varsN.zip tpl.varsR).length = tpl.pats.length := by
    rw [List.length_zip, hvarsR_len, h2, Nat.min_self]
  have hsome : ∀ n ∈ tpl.varsN, (lookupStr values n).isSome = true := by
    intro n hn
    obtain ⟨i, hi, hgn⟩ := List.mem_iff_getElem.mp hn
    have hzi : i < (tpl.varsN.zip tpl.varsR).length := by
      rw [hziplen]
      rw [h2] at hi
      exact hi
    obtain ⟨v, hl, -⟩ := hvals ((tpl.varsN.zip tpl.varsR).get ⟨i, hzi⟩)
      (List.get_mem _ _ _)
    have hfst : ((tpl.varsN.zip tpl.varsR).get ⟨i, hzi⟩).1 = n := by
      rw [List.get_eq_getElem, List.getElem_zip]
      exact hgn
    rw [hfst] at hl
    rw [hl]
    rfl
  have hbv_len : (bindingsVals values tpl).length = tpl.pats.length := by
    simp only [bindingsVals, List.length_map]
    exact h2
  have hzipvals : ∀ pv ∈ tpl.pats.zip (bindingsVals values tpl),
      patMatchB pv.1 pv.2 = true := by
    intro pv hpv
    obtain ⟨i, hzi, hpveq⟩ := List.mem_iff_getElem.mp hpv
    have hiN : i < tpl.varsN.length := by
      rw [List.length_zip, hbv_len, Nat.min_self] at hzi
      rw [h2]
      exact hzi
    have hziv : i < (tpl.varsN.zip tpl.varsR).length := by
      rw [hziplen, ← h2]
      exact hiN
    obtain ⟨v, hl, hp⟩ := hvals ((tpl.varsN.zip tpl.varsR).get ⟨i, hziv⟩)
      (List.get_mem _ _ _)
    rw [List.get_eq_getElem, List.getElem_zip] at hl hp
    rw [← hpveq, List.getElem_zip]
    dsimp only
    have hbvi : i < (bindingsVals values tpl).length := by
      rw [hbv_len, ← h2]
      exact hiN
    have hbv : (bindingsVals values tpl)[i] = v := by
      simp only [bindingsVals, List.getElem_map]
      rw [hl]
      rfl
    rw [hbv]
    exact hp
  have hlv : lookupVals values tpl.varsN = .ok (bindingsVals values tpl) :=
    lookupVals_ok values tpl.varsN hsome
  have hsp : sprintfS (reverseFromLits tpl.lits) (bindingsVals values tpl) =
      interleave tpl.lits (bindingsVals values tpl) :=
    sprintfS_reverseFromLits tpl.lits (bindingsVals values tpl) hnpl
      (by rw [hbv_len, h1])
  have hmatch : tplMatchesStr tpl
      (interleave tpl.lits (bindingsVals values tpl)) = true :=
    tplMatchesB_complete tpl.isPre tpl.pats tpl.lits (bindingsVals values tpl)
      h1 hbv_len hzipvals
  refine ⟨?_, hmatch, ?_⟩
  · rw [reverseRoute, hlv]
    dsimp only [parsedTemplate.reverseFmt]
    rw [hsp]
    rw [if_pos hmatch]
  · intro caps hex
    obtain ⟨hlen, hdecomp, hallz⟩ :=
      extractCaptures_sound tpl.isPre tpl.pats tpl.lits
        (interleave tpl.lits (bindingsVals values tpl)) caps hex
    exact ⟨by rw [hlen, ← h2], hdecomp, hallz⟩

/-- C1 witness: for `/articles/{category}/{id:[0-9]+}` with bindings
`category = technology, id = 42`, the reverse builder returns
`/articles/technology/42` and that string matches the compiled regexp. -/
theorem C1_round_trip_amended_witness :
    reverseRoute tplArt artBindings = .ok "/articles/technology/42".data ∧
    tplMatchesStr tplArt "/articles/technology/42".data = true := by
  have hv : ∀ nv ∈ tplArt.varsN.zip tplArt.varsR, ∃ v,
      lookupStr artBindings nv.1 = some v ∧ patMatchB nv.2 v = true := by
    intro nv hnv
    have hzip : tplArt.varsN.zip tplArt.varsR =
        [("category".data, "[^/]+".data), ("id".data, "[0-9]+".data)] := rfl
    rw [hzip] at hnv
    rcases List.mem_cons.mp hnv with rfl | hnv2
    · exact ⟨"technology".data, rfl, rfl⟩
    · rcases List.mem_cons.mp hnv2 with rfl | hnv3
      · exact ⟨"42".data, rfl, rfl⟩
      · exact absurd hnv3 (by simp)
  have h := C1_round_trip_amended "/articles/{category}/{id:[0-9]+}".data
    "[^/]+".data false (some []) tplArt [(10, 20), (21, 32)] artBindings
    rfl rfl (by decide) hv
  exact ⟨h.1, h.2.1⟩

end Gorilla
